import Mathlib

/-!
Shallow embedding of `src/helpers.py` (notebook helper functions for a
RAG demo): the markdown display formatter `to_markdown`, the document
concatenator `format_docs`, the session-history accessor
`get_session_history`, and the Wikipedia page cache
`load_wikipedia_with_cache`, together with proofs of the specified
properties.

Conventions of the embedding:
* Python text is modelled as `List Char` (Python strings are sequences of
  code points); `String` is used where the source only passes whole
  strings around.
* The JSON cache file is modelled by `FileState`: absent, unreadable
  (invalid JSON or I/O failure, carrying the error message), or a parsed
  top-level object.  `json.dump` followed by `json.load` is the identity
  on string-keyed objects of the kind this cache writes, so the valid
  state stores the mapping itself; the byte rendering of a valid file is
  given separately by `dumpCache`, a model of
  `json.dump(cache, f, indent=4)`.
* Fallible Python calls return `Except PyErr`; an uncaught exception is
  an `Except.error`.
* The page-loading collaborator (`WikipediaLoader(title).load()`) is a
  parameter `loader : String → List Document`; the number of collaborator
  invocations performed by a call is returned alongside the result so
  that call-count properties can be stated.
-/

/-- A JSON value, as produced by `json.load` and consumed by `json.dump`.
Numbers are modelled as integers. -/
inductive JVal where
  | null : JVal
  | bool : Bool → JVal
  | num : Int → JVal
  | str : String → JVal
  | arr : List JVal → JVal
  | obj : List (String × JVal) → JVal

/-- A langchain `Document`: `page_content` plus an open `metadata`
mapping (string keys, JSON-representable values). -/
structure Document where
  page_content : String
  metadata : List (String × JVal)

/-- Lookup in a Python dict, modelled as an insertion-ordered
association list with unique keys. -/
def dictLookup {α : Type} : List (String × α) → String → Option α
  | [], _ => none
  | (k, v) :: rest, key => if k = key then some v else dictLookup rest key

/-- Python dict assignment `d[key] = v`: update in place if the key
exists, otherwise append at the end (insertion order). -/
def dictSet {α : Type} : List (String × α) → String → α → List (String × α)
  | [], key, v => [(key, v)]
  | (k, w) :: rest, key, v =>
    if k = key then (key, v) :: rest else (k, w) :: dictSet rest key v

/-- The plain field mapping `doc.__dict__` used for JSON serialization. -/
abbrev DocDict := List (String × JVal)

/-- The parsed cache file: a JSON object mapping page titles to arrays
of document field mappings. -/
abbrev Cache := List (String × List DocDict)

/-- `doc.__dict__`: the field mapping of a `Document`. -/
def serializeDoc (d : Document) : DocDict :=
  [("page_content", JVal.str d.page_content), ("metadata", JVal.obj d.metadata)]

/-- `Document(**doc_dict)`: reconstruct a `Document` from a field
mapping.  `page_content` must be present as a string; `metadata` is
optional (defaulting to the empty mapping) and must be an object when
present; otherwise construction raises. -/
def deserializeDoc (fields : DocDict) : Option Document :=
  match dictLookup fields "page_content", dictLookup fields "metadata" with
  | some (JVal.str pc), some (JVal.obj md) => some ⟨pc, md⟩
  | some (JVal.str pc), none => some ⟨pc, []⟩
  | _, _ => none

/-- `[Document(**d) for d in dicts]`: raises if any element raises. -/
def deserializeDocs : List DocDict → Option (List Document)
  | [] => some []
  | d :: ds =>
    match deserializeDoc d, deserializeDocs ds with
    | some doc, some docs => some (doc :: docs)
    | _, _ => none

/-- An uncaught Python exception, with its message. -/
inductive PyErr where
  | readErr : String → PyErr
  | typeErr : String → PyErr

/-- The state of the cache file `wikipedia_cache.json`.  An `invalid`
file exists but cannot be read as JSON (its concrete bytes are not
modelled, only the resulting error). -/
inductive FileState where
  | absent : FileState
  | invalid : String → FileState
  | valid : Cache → FileState

/-- `open(CACHE_FILE, "r"); json.load(f)` under the
`try/except FileNotFoundError` of lines 110-114: a missing file yields
the empty mapping, any other read failure (including invalid JSON)
propagates unchanged, and a readable valid file yields the parsed
object. -/
def readCache : FileState → Except PyErr Cache
  | FileState.absent => Except.ok []
  | FileState.invalid msg => Except.error (PyErr.readErr msg)
  | FileState.valid cache => Except.ok cache

/-- `load_wikipedia_with_cache(title)` (helpers.py lines 96-129).
Returns the resulting document list, the cache file state after the
call, and the number of times the page-loading collaborator was
invoked during the call. -/
def load_wikipedia_with_cache (loader : String → List Document)
    (file : FileState) (title : String) :
    Except PyErr (List Document × FileState × Nat) :=
  match readCache file with
  | Except.error e => Except.error e
  | Except.ok cache =>
    match dictLookup cache title with
    | some dicts =>
      match deserializeDocs dicts with
      | some docs => Except.ok (docs, file, 0)
      | none => Except.error (PyErr.typeErr "Document construction failed")
    | none =>
      let docs := loader title
      Except.ok (docs,
        FileState.valid (dictSet cache title (docs.map serializeDoc)), 1)

/-- `format_docs(docs)` on an actual list (helpers.py line 80):
join the `page_content` fields with a double line break. -/
def format_docs (docs : List Document) : String :=
  String.intercalate "\n\n" (docs.map Document.page_content)

/-- `format_docs` as called dynamically: passing `None` makes
`str.join` iterate over `None`, which raises `TypeError` — the
docstring's promise of an empty string for `None` does not hold. -/
def format_docsPy : Option (List Document) → Except PyErr String
  | none => Except.error (PyErr.typeErr "NoneType object is not iterable")
  | some docs => Except.ok (format_docs docs)

/-- A chat turn (role plus content). -/
structure Message where
  role : String
  content : String

/-- A `ChatMessageHistory`: an append-only list of chat turns. -/
abbrev History := List Message

/-- The process-wide session store `store = {}`. -/
abbrev Store := List (String × History)

/-- `get_session_history(session_id)` (helpers.py lines 82-94), with the
global store passed explicitly.  Returns the (possibly extended) store
and the history the returned object aliases.  The `display(...)` call
on line 91 only renders the store and changes no state, so it is not
modelled. -/
def get_session_history (store : Store) (sid : String) : Store × History :=
  match dictLookup store sid with
  | some h => (store, h)
  | none => (dictSet store sid [], [])

/-- `history.add_message(m)` on the object returned for `sid`: since
that object aliases the store entry, the mutation is modelled as an
update of the entry.  A call for an id with no entry changes nothing
(such an alias cannot exist). -/
def appendMessage (store : Store) (sid : String) (m : Message) : Store :=
  match dictLookup store sid with
  | some h => dictSet store sid (h ++ [m])
  | none => store

/-- The stub loader of the spec's worked example: one document with
content "X" and empty metadata. -/
def stubLoader : String → List Document := fun _ => [⟨"X", []⟩]

/-- A second collaborator, standing in for the replaced stub that must
not be invoked on the cache hit. -/
def otherLoader : String → List Document := fun _ => []

/-- Indentation of `json.dump(..., indent=4)`: `4 * lvl` spaces. -/
def pad (lvl : Nat) : String := String.mk (List.replicate (4 * lvl) ' ')

/-- One hexadecimal digit, lowercase, as emitted by Python's JSON
encoder in escape sequences. -/
def hexDigit (n : Nat) : Char :=
  if n < 10 then Char.ofNat (48 + n) else Char.ofNat (87 + n)

/-- Four-digit lowercase hexadecimal rendering of a code unit. -/
def hex4 (n : Nat) : String :=
  String.mk [hexDigit (n / 4096 % 16), hexDigit (n / 256 % 16),
    hexDigit (n / 16 % 16), hexDigit (n % 16)]

/-- The escape sequence the default (`ensure_ascii=True`) encoder uses
for a non-ASCII or control code point: a `\uXXXX` escape, as a
surrogate pair beyond the basic multilingual plane. -/
def uniEsc (n : Nat) : String :=
  if n ≤ 0xFFFF then "\\u" ++ hex4 n
  else
    "\\u" ++ hex4 (0xD800 + (n - 0x10000) / 0x400) ++
      "\\u" ++ hex4 (0xDC00 + (n - 0x10000) % 0x400)

/-- Escaping of a single character inside a JSON string literal, per
Python's default encoder. -/
def escChar (c : Char) : String :=
  if c = '"' then "\\\""
  else if c = '\\' then "\\\\"
  else if c = '\n' then "\\n"
  else if c = '\r' then "\\r"
  else if c = '\t' then "\\t"
  else if c = '\x08' then "\\b"
  else if c = '\x0c' then "\\f"
  else if c.toNat < 0x20 || c.toNat > 0x7e then uniEsc c.toNat
  else String.singleton c

/-- A JSON string literal with quotes and escapes. -/
def quoteStr (s : String) : String :=
  "\"" ++ String.join (s.data.map escChar) ++ "\""

mutual

/-- `json.dumps(v, indent=4)` at nesting level `lvl`: Python's encoder
with the default separators for an indented dump (`","` and `": "`).
A brace is written `\x7b` / `\x7d`. -/
def dumpJVal : Nat → JVal → String
  | _, JVal.null => "null"
  | _, JVal.bool true => "true"
  | _, JVal.bool false => "false"
  | _, JVal.num n => toString n
  | _, JVal.str s => quoteStr s
  | lvl, JVal.arr xs =>
    match xs with
    | [] => "[]"
    | _ :: _ => "[\n" ++ dumpArr (lvl + 1) xs ++ "\n" ++ pad lvl ++ "]"
  | lvl, JVal.obj fs =>
    match fs with
    | [] => "\x7b\x7d"
    | _ :: _ => "\x7b\n" ++ dumpObj (lvl + 1) fs ++ "\n" ++ pad lvl ++ "\x7d"

/-- Array elements of an indented dump, one per line. -/
def dumpArr : Nat → List JVal → String
  | _, [] => ""
  | lvl, [x] => pad lvl ++ dumpJVal lvl x
  | lvl, x :: xs => pad lvl ++ dumpJVal lvl x ++ ",\n" ++ dumpArr lvl xs

/-- Object members of an indented dump, one per line. -/
def dumpObj : Nat → List (String × JVal) → String
  | _, [] => ""
  | lvl, [(k, v)] => pad lvl ++ quoteStr k ++ ": " ++ dumpJVal lvl v
  | lvl, (k, v) :: fs =>
    pad lvl ++ quoteStr k ++ ": " ++ dumpJVal lvl v ++ ",\n" ++ dumpObj lvl fs

end

/-- The cache mapping as the JSON value `json.dump` receives. -/
def jsonOfCache (c : Cache) : JVal :=
  JVal.obj (c.map (fun e => (e.1, JVal.arr (e.2.map JVal.obj))))

/-- The exact bytes `json.dump(cache, f, indent=4)` writes on a cache
miss (helpers.py lines 126-127). -/
def dumpCache (c : Cache) : String :=
  dumpJVal 0 (jsonOfCache c)

/-- The byte content of the cache file, where known: a valid file holds
exactly what the deterministic indented dump produces for its mapping;
the bytes of an absent file do not exist, and the bytes of an invalid
file are not modelled. -/
def fileBytes : FileState → Option String
  | FileState.valid c => some (dumpCache c)
  | _ => none

/-- The backtick character, written by code point to keep source lines
free of stray backticks. -/
def tick : Char := '\x60'

/-- The exact character set of Python `str.isspace()`, which is what the
argument-free `str.strip()` removes: code points 0x9-0xd, 0x1c-0x20,
0x85, 0xa0, 0x1680, 0x2000-0x200a, 0x2028-0x2029, 0x202f, 0x205f and
0x3000 (enumerated from CPython 3.11). -/
def isSpace (c : Char) : Bool :=
  decide ((0x9 ≤ c.toNat ∧ c.toNat ≤ 0xd) ∨ (0x1c ≤ c.toNat ∧ c.toNat ≤ 0x20) ∨
    c.toNat = 0x85 ∨ c.toNat = 0xa0 ∨ c.toNat = 0x1680 ∨
    (0x2000 ≤ c.toNat ∧ c.toNat ≤ 0x200a) ∨ c.toNat = 0x2028 ∨ c.toNat = 0x2029 ∨
    c.toNat = 0x202f ∨ c.toNat = 0x205f ∨ c.toNat = 0x3000)

/-- `line.strip()`: drop whitespace from both ends. -/
def stripChars (l : List Char) : List Char :=
  ((l.dropWhile isSpace).reverse.dropWhile isSpace).reverse

/-- `line.startswith("\x60\x60\x60")`: the first three characters are
backticks. -/
def isFence : List Char → Bool
  | c1 :: c2 :: c3 :: _ => c1 == tick && c2 == tick && c3 == tick
  | _ => false

/-- Some position of the text starts three consecutive backticks: the
text contains a code-fence marker. -/
def hasTicks : List Char → Bool
  | [] => false
  | c :: cs => isFence (c :: cs) || hasTicks cs

/-- The text contains the bullet glyph. -/
def hasBullet : List Char → Bool
  | [] => false
  | c :: cs => c == '•' || hasBullet cs

/-- `text.replace('•', '  * ')` (helpers.py line 31): the pattern is a
single character, so this is a pointwise rewrite. -/
def replaceBullets : List Char → List Char
  | [] => []
  | c :: cs =>
    if c == '•' then ' ' :: ' ' :: '*' :: ' ' :: replaceBullets cs
    else c :: replaceBullets cs

/-- The fixed opening of the python-block pattern, the 10 characters
of "\x60\x60\x60python\n". -/
def pyOpen : List Char := [tick, tick, tick, 'p', 'y', 't', 'h', 'o', 'n', '\n']

/-- The fixed closing of the python-block pattern, the 4 characters of
"\n\x60\x60\x60". -/
def closePat : List Char := ['\n', tick, tick, tick]

/-- `pat` is a prefix of the input. -/
def startsWithL : List Char → List Char → Bool
  | [], _ => true
  | _ :: _, [] => false
  | p :: ps, c :: cs => p == c && startsWithL ps cs

/-- Some position of the text starts an occurrence of `pyOpen`. -/
def hasPyOpen : List Char → Bool
  | [] => false
  | c :: cs => startsWithL pyOpen (c :: cs) || hasPyOpen cs

/-- Split the text at the first occurrence of `closePat`, returning the
part before it and the part after it — the non-greedy `(.*?)` of the
python-block regex followed by its closing fence. -/
def splitAtClose : List Char → Option (List Char × List Char)
  | [] => none
  | c :: cs =>
    if startsWithL closePat (c :: cs) then some ([], (c :: cs).drop 4)
    else
      match splitAtClose cs with
      | some (a, b) => some (c :: a, b)
      | none => none

/-- Try to match the python-block pattern at the current position:
the fixed opening, then the shortest content up to a closing fence.
Returns the captured group and the rest of the input after the match. -/
def matchPy (cs : List Char) : Option (List Char × List Char) :=
  if startsWithL pyOpen cs then splitAtClose (cs.drop 10) else none

/-- The replacement of `preserve_code` (helpers.py lines 34-35): the
matched block re-emitted with a newline added on each side. -/
def wrapPy (g1 : List Char) : List Char :=
  '\n' :: (pyOpen ++ g1 ++ ('\n' :: tick :: tick :: tick :: '\n' :: []))

/-- The left-to-right scan of `re.sub` for the python-block pattern
(helpers.py line 38): at each position, replace a match and continue
after it, otherwise copy one character.  Structured with explicit fuel
to stay structurally recursive; one unit of fuel is spent per step and
each step consumes at least one character, so `length` units suffice. -/
def pySubFuel : Nat → List Char → List Char
  | 0, cs => cs
  | _ + 1, [] => []
  | fuel + 1, c :: cs =>
    match matchPy (c :: cs) with
    | some (g1, rest) => wrapPy g1 ++ pySubFuel fuel rest
    | none => c :: pySubFuel fuel cs

/-- `re.sub(r"\x60\x60\x60python\n(.*?)\n\x60\x60\x60", preserve_code,
text, flags=re.DOTALL)`. -/
def pythonSub (cs : List Char) : List Char := pySubFuel cs.length cs

/-- `text.split("\n")` (helpers.py line 41): every newline separates,
empty pieces kept, `[""]` for the empty text. -/
def splitLines : List Char → List (List Char)
  | [] => [[]]
  | c :: cs =>
    if c = '\n' then [] :: splitLines cs
    else
      match splitLines cs with
      | [] => [[c]]
      | l :: ls => (c :: l) :: ls

/-- `"\n".join(lines)` (helpers.py line 61). -/
def joinLines : List (List Char) → List Char
  | [] => []
  | [l] => l
  | l :: ls => l ++ '\n' :: joinLines ls

/-- The line loop of `to_markdown` (helpers.py lines 45-58): a fence
line toggles the inside-code flag and is kept as-is; inside a fence
every line is kept as-is; outside, a line is stripped, dropped when
blank, and otherwise prefixed with the blockquote marker. -/
def processLines : List (List Char) → Bool → List (List Char)
  | [], _ => []
  | l :: ls, inside =>
    if isFence l then l :: processLines ls (!inside)
    else if inside then l :: processLines ls inside
    else if stripChars l = [] then processLines ls inside
    else ('>' :: ' ' :: stripChars l) :: processLines ls inside

/-- The flag value of the line loop after processing the given lines
starting from `b`: toggled once per fence line. -/
def flagAfter : List (List Char) → Bool → Bool
  | [], b => b
  | l :: ls, b => flagAfter ls (if isFence l then !b else b)

/-- `to_markdown(text)` (helpers.py lines 17-63): bullet replacement,
python-block normalization, then the line loop, re-joined.  The
returned `Markdown` display object is identified with the string it
wraps. -/
def to_markdown (text : List Char) : List Char :=
  joinLines (processLines (splitLines (pythonSub (replaceBullets text))) false)

theorem dictLookup_dictSet_self {α : Type} (l : List (String × α)) (k : String) (v : α) :
    dictLookup (dictSet l k v) k = some v := by
  induction l with
  | nil => simp [dictSet, dictLookup]
  | cons p rest ih =>
    obtain ⟨k1, v1⟩ := p
    by_cases h : k1 = k
    · subst h
      simp [dictSet, dictLookup]
    · simp [dictSet, dictLookup, h, ih]

theorem deserializeDoc_serializeDoc (d : Document) :
    deserializeDoc (serializeDoc d) = some d := rfl

theorem deserializeDocs_map (docs : List Document) :
    deserializeDocs (docs.map serializeDoc) = some docs := by
  induction docs with
  | nil => rfl
  | cons d ds ih => simp [deserializeDocs, deserializeDoc_serializeDoc, ih]

theorem isFence_cons_false (c : Char) (l : List Char) (h : (c == tick) = false) :
    isFence (c :: l) = false := by
  cases l with
  | nil => rfl
  | cons x r =>
    cases r with
    | nil => rfl
    | cons y r2 => simp [isFence, h]

theorem isFence_false_of_no_ticks (l : List Char) (h : hasTicks l = false) :
    isFence l = false := by
  cases l with
  | nil => rfl
  | cons c cs =>
    simp [hasTicks] at h
    exact h.1

theorem isFence_of_pyOpen (l : List Char) (h : startsWithL pyOpen l = true) :
    isFence l = true := by
  cases l with
  | nil => simp [pyOpen, startsWithL] at h
  | cons x r =>
    cases r with
    | nil => simp [pyOpen, startsWithL] at h
    | cons y r2 =>
      cases r2 with
      | nil => simp [pyOpen, startsWithL] at h
      | cons z r3 =>
        simp [pyOpen, startsWithL, Bool.and_eq_true, beq_iff_eq] at h
        obtain ⟨h1, h2, h3, _⟩ := h
        simp [isFence, ← h1, ← h2, ← h3]

theorem isFence_extend (c : Char) (m cs : List Char)
    (hf : isFence (c :: m) = true) (hs : startsWithL m cs = true) :
    isFence (c :: cs) = true := by
  cases m with
  | nil => simp [isFence] at hf
  | cons x m2 =>
    cases m2 with
    | nil => simp [isFence] at hf
    | cons y r =>
      cases cs with
      | nil => simp [startsWithL] at hs
      | cons c2 cs2 =>
        cases cs2 with
        | nil => simp [startsWithL] at hs
        | cons c3 cs3 =>
          simp [startsWithL, Bool.and_eq_true, beq_iff_eq] at hs
          obtain ⟨hx2, hy2, _⟩ := hs
          subst hx2
          subst hy2
          simpa [isFence] using hf

theorem replaceBullets_id (cs : List Char) (h : hasBullet cs = false) :
    replaceBullets cs = cs := by
  induction cs with
  | nil => rfl
  | cons c rest ih =>
    simp [hasBullet] at h
    simp [replaceBullets, h.1, ih h.2]

theorem isFence_replaceBullets (c : Char) (cs : List Char)
    (h : isFence (c :: replaceBullets cs) = true) : isFence (c :: cs) = true := by
  cases cs with
  | nil => simp [replaceBullets, isFence] at h
  | cons a as =>
    by_cases ha : a = '•'
    · rw [show replaceBullets (a :: as) = ' ' :: ' ' :: '*' :: ' ' :: replaceBullets as from
        by simp [replaceBullets, ha]] at h
      have hsp : (' ' == tick) = false := by decide
      simp [isFence, hsp] at h
    · rw [show replaceBullets (a :: as) = a :: replaceBullets as from
        by simp [replaceBullets, ha]] at h
      cases as with
      | nil => simp [replaceBullets, isFence] at h
      | cons b bs =>
        by_cases hb : b = '•'
        · rw [show replaceBullets (b :: bs) = ' ' :: ' ' :: '*' :: ' ' :: replaceBullets bs from
            by simp [replaceBullets, hb]] at h
          have hsp : (' ' == tick) = false := by decide
          simp [isFence, hsp] at h
        · rw [show replaceBullets (b :: bs) = b :: replaceBullets bs from
            by simp [replaceBullets, hb]] at h
          simpa [isFence] using h

theorem hasTicks_replaceBullets (cs : List Char) (h : hasTicks cs = false) :
    hasTicks (replaceBullets cs) = false := by
  induction cs with
  | nil => rfl
  | cons c rest ih =>
    simp [hasTicks] at h
    have ih2 := ih h.2
    by_cases hc : c = '•'
    · rw [show replaceBullets (c :: rest) = ' ' :: ' ' :: '*' :: ' ' :: replaceBullets rest from
        by simp [replaceBullets, hc]]
      have hsp : (' ' == tick) = false := by decide
      have hst : ('*' == tick) = false := by decide
      simp [hasTicks, show ∀ l, isFence (' ' :: l) = false from fun l => isFence_cons_false ' ' l hsp,
        show ∀ l, isFence ('*' :: l) = false from fun l => isFence_cons_false '*' l hst, ih2]
    · rw [show replaceBullets (c :: rest) = c :: replaceBullets rest from
        by simp [replaceBullets, hc]]
      simp only [hasTicks, ih2, Bool.or_false]
      cases hF : isFence (c :: replaceBullets rest)
      · rfl
      · exact absurd (isFence_replaceBullets c rest hF) (by simp [h.1])

theorem hasPyOpen_of_no_ticks (cs : List Char) (h : hasTicks cs = false) :
    hasPyOpen cs = false := by
  induction cs with
  | nil => rfl
  | cons c rest ih =>
    simp [hasTicks] at h
    simp only [hasPyOpen, ih h.2, Bool.or_false]
    cases hS : startsWithL pyOpen (c :: rest)
    · rfl
    · exact absurd (isFence_of_pyOpen _ hS) (by simp [h.1])

theorem pySubFuel_id (fuel : Nat) (cs : List Char) (h : hasPyOpen cs = false) :
    pySubFuel fuel cs = cs := by
  induction fuel generalizing cs with
  | zero => rfl
  | succ n ih =>
    cases cs with
    | nil => rfl
    | cons c rest =>
      simp [hasPyOpen] at h
      have hm : matchPy (c :: rest) = none := by
        unfold matchPy
        simp [h.1]
      simp [pySubFuel, hm, ih rest h.2]

theorem pythonSub_id (cs : List Char) (h : hasPyOpen cs = false) :
    pythonSub cs = cs :=
  pySubFuel_id cs.length cs h

theorem splitLines_ne_nil (cs : List Char) : splitLines cs ≠ [] := by
  cases cs with
  | nil => simp [splitLines]
  | cons c rest =>
    by_cases hc : c = '\n'
    · simp [splitLines, hc]
    · cases hs : splitLines rest with
      | nil => simp [splitLines, hc, hs]
      | cons l ls => simp [splitLines, hc, hs]

theorem splitLines_startsWith (cs : List Char) :
    ∀ m ms, splitLines cs = m :: ms → startsWithL m cs = true := by
  induction cs with
  | nil =>
    intro m ms h
    simp [splitLines] at h
    rw [h.1]
    rfl
  | cons c rest ih =>
    intro m ms h
    by_cases hc : c = '\n'
    · rw [show splitLines (c :: rest) = [] :: splitLines rest from by simp [splitLines, hc]] at h
      injection h with h1 _
      rw [← h1]
      rfl
    · cases hs : splitLines rest with
      | nil => exact absurd hs (splitLines_ne_nil rest)
      | cons l ls =>
        rw [show splitLines (c :: rest) = (c :: l) :: ls from by simp [splitLines, hc, hs]] at h
        injection h with h1 _
        rw [← h1]
        simp [startsWithL, ih l ls hs]

theorem splitLines_no_ticks (cs : List Char) (h : hasTicks cs = false) :
    ∀ l ∈ splitLines cs, hasTicks l = false := by
  induction cs with
  | nil =>
    intro l hl
    simp [splitLines] at hl
    rw [hl]
    rfl
  | cons c rest ih =>
    intro l hl
    simp [hasTicks] at h
    by_cases hc : c = '\n'
    · rw [show splitLines (c :: rest) = [] :: splitLines rest from by simp [splitLines, hc]] at hl
      rcases List.mem_cons.mp hl with h1 | h1
      · rw [h1]
        rfl
      · exact ih h.2 l h1
    · cases hs : splitLines rest with
      | nil => exact absurd hs (splitLines_ne_nil rest)
      | cons m ms =>
        rw [show splitLines (c :: rest) = (c :: m) :: ms from by simp [splitLines, hc, hs]] at hl
        rcases List.mem_cons.mp hl with h1 | h1
        · have hm : hasTicks m = false :=
            ih h.2 m (by rw [hs]; exact List.mem_cons_self m ms)
          rw [h1]
          simp only [hasTicks, hm, Bool.or_false]
          cases hF : isFence (c :: m)
          · rfl
          · exfalso
            have hsw : startsWithL m rest = true := splitLines_startsWith rest m ms hs
            have hext : isFence (c :: rest) = true := isFence_extend c m rest hF hsw
            simp [h.1] at hext
        · exact ih h.2 l (by rw [hs]; exact List.mem_cons_of_mem m h1)

theorem splitLines_no_fence (cs : List Char) (h : hasTicks cs = false) :
    ∀ l ∈ splitLines cs, isFence l = false :=
  fun l hl => isFence_false_of_no_ticks l (splitLines_no_ticks cs h l hl)

theorem processLines_append (xs : List (List Char)) :
    ∀ (ys : List (List Char)) (b : Bool),
      processLines (xs ++ ys) b = processLines xs b ++ processLines ys (flagAfter xs b) := by
  induction xs with
  | nil => intro ys b; rfl
  | cons l t ih =>
    intro ys b
    by_cases hf : isFence l = true
    · simp [processLines, flagAfter, hf, ih]
    · cases b with
      | true => simp [processLines, flagAfter, hf, ih]
      | false =>
        by_cases hs : stripChars l = []
        · simp [processLines, flagAfter, hf, hs, ih]
        · simp [processLines, flagAfter, hf, hs, ih]

theorem processLines_fence_cons (l : List Char) (ls : List (List Char)) (b : Bool)
    (h : isFence l = true) :
    processLines (l :: ls) b = l :: processLines ls (!b) := by
  simp [processLines, h]

theorem processLines_true_id (ls : List (List Char))
    (h : ∀ l ∈ ls, isFence l = false) : processLines ls true = ls := by
  induction ls with
  | nil => rfl
  | cons l t ih =>
    have h1 : isFence l = false := h l (List.mem_cons_self l t)
    simp [processLines, h1, ih (fun x hx => h x (List.mem_cons_of_mem l hx))]

theorem flagAfter_no_fence (ls : List (List Char)) (b : Bool)
    (h : ∀ l ∈ ls, isFence l = false) : flagAfter ls b = b := by
  induction ls generalizing b with
  | nil => rfl
  | cons l t ih =>
    have h1 : isFence l = false := h l (List.mem_cons_self l t)
    simp [flagAfter, h1, ih b (fun x hx => h x (List.mem_cons_of_mem l hx))]

theorem mem_dropWhile (p : Char → Bool) (l : List Char) (c : Char)
    (h : c ∈ l.dropWhile p) : c ∈ l := by
  induction l with
  | nil => simp [List.dropWhile] at h
  | cons a t ih =>
    rw [List.dropWhile_cons] at h
    by_cases hp : p a = true
    · rw [if_pos hp] at h
      exact List.mem_cons_of_mem a (ih h)
    · rw [if_neg hp] at h
      exact h

theorem mem_stripChars (l : List Char) (c : Char) (h : c ∈ stripChars l) : c ∈ l := by
  unfold stripChars at h
  rw [List.mem_reverse] at h
  have h2 := mem_dropWhile _ _ _ h
  rw [List.mem_reverse] at h2
  exact mem_dropWhile _ _ _ h2

theorem splitLines_no_newline (cs : List Char) :
    ∀ l ∈ splitLines cs, '\n' ∉ l := by
  induction cs with
  | nil =>
    intro l hl
    simp [splitLines] at hl
    rw [hl]
    simp
  | cons c rest ih =>
    intro l hl
    by_cases hc : c = '\n'
    · rw [show splitLines (c :: rest) = [] :: splitLines rest from
        by simp [splitLines, hc]] at hl
      rcases List.mem_cons.mp hl with h1 | h1
      · rw [h1]
        simp
      · exact ih l h1
    · cases hs : splitLines rest with
      | nil => exact absurd hs (splitLines_ne_nil rest)
      | cons m ms =>
        rw [show splitLines (c :: rest) = (c :: m) :: ms from
          by simp [splitLines, hc, hs]] at hl
        rcases List.mem_cons.mp hl with h1 | h1
        · rw [h1]
          intro hmem
          rcases List.mem_cons.mp hmem with h2 | h2
          · exact hc h2.symm
          · exact ih m (by rw [hs]; exact List.mem_cons_self m ms) h2
        · exact ih l (by rw [hs]; exact List.mem_cons_of_mem m h1)

theorem splitLines_of_no_newline (l : List Char) (h : '\n' ∉ l) :
    splitLines l = [l] := by
  induction l with
  | nil => rfl
  | cons c cs ih =>
    have hc : ¬(c = '\n') := fun he => h (by rw [he]; exact List.mem_cons_self _ _)
    have hcs : '\n' ∉ cs := fun hm => h (List.mem_cons_of_mem c hm)
    simp [splitLines, hc, ih hcs]

theorem splitLines_append_newline (l X : List Char) (h : '\n' ∉ l) :
    splitLines (l ++ '\n' :: X) = l :: splitLines X := by
  induction l with
  | nil => simp [splitLines]
  | cons c cs ih =>
    have hc : ¬(c = '\n') := fun he => h (by rw [he]; exact List.mem_cons_self _ _)
    have hcs : '\n' ∉ cs := fun hm => h (List.mem_cons_of_mem c hm)
    simp [splitLines, hc, ih hcs]

theorem splitLines_joinLines (ls : List (List Char)) (hnl : ∀ l ∈ ls, '\n' ∉ l)
    (hne : ls ≠ []) : splitLines (joinLines ls) = ls := by
  induction ls with
  | nil => exact absurd rfl hne
  | cons l t ih =>
    cases t with
    | nil =>
      rw [show joinLines [l] = l from rfl]
      exact splitLines_of_no_newline l (hnl l (List.mem_cons_self _ _))
    | cons l2 t2 =>
      rw [show joinLines (l :: l2 :: t2) = l ++ '\n' :: joinLines (l2 :: t2) from rfl]
      rw [splitLines_append_newline l _ (hnl l (List.mem_cons_self _ _))]
      rw [ih (fun x hx => hnl x (List.mem_cons_of_mem l hx)) (by simp)]

theorem dropWhile_head_false (p : Char → Bool) (l : List Char) (c : Char)
    (h : (l.dropWhile p).head? = some c) : p c = false := by
  induction l with
  | nil => simp [List.dropWhile] at h
  | cons a t ih =>
    cases hp : p a with
    | true =>
      rw [List.dropWhile_cons, if_pos hp] at h
      exact ih h
    | false =>
      rw [List.dropWhile_cons, if_neg (by simp [hp])] at h
      simp at h
      rw [← h]
      exact hp

theorem getLast?_dropWhile (p : Char → Bool) (l : List Char)
    (h : l.dropWhile p ≠ []) : (l.dropWhile p).getLast? = l.getLast? := by
  induction l with
  | nil => simp [List.dropWhile] at h
  | cons a t ih =>
    cases hp : p a with
    | false => rw [List.dropWhile_cons, if_neg (by simp [hp])]
    | true =>
      rw [List.dropWhile_cons, if_pos hp] at h ⊢
      cases t with
      | nil => simp [List.dropWhile] at h
      | cons b ts =>
        rw [ih h]
        exact (List.getLast?_cons_cons).symm

theorem stripChars_head (l : List Char) (c : Char)
    (h : (stripChars l).head? = some c) : isSpace c = false := by
  unfold stripChars at h
  rw [List.head?_reverse] at h
  have hne : (l.dropWhile isSpace).reverse.dropWhile isSpace ≠ [] := by
    intro h0
    rw [h0] at h
    simp at h
  rw [getLast?_dropWhile _ _ hne, List.getLast?_reverse] at h
  exact dropWhile_head_false _ _ _ h

theorem stripChars_last (l : List Char) (c : Char)
    (h : (stripChars l).getLast? = some c) : isSpace c = false := by
  unfold stripChars at h
  rw [List.getLast?_reverse] at h
  exact dropWhile_head_false _ _ _ h

theorem processLines_out (ls : List (List Char))
    (hnf : ∀ l ∈ ls, isFence l = false)
    (hnl : ∀ l ∈ ls, '\n' ∉ l) :
    ∀ out ∈ processLines ls false,
      ∃ s, s ≠ [] ∧ '\n' ∉ s ∧
        (∀ c, s.head? = some c → isSpace c = false) ∧
        (∀ c, s.getLast? = some c → isSpace c = false) ∧
        out = '>' :: ' ' :: s := by
  induction ls with
  | nil => intro out hout; simp [processLines] at hout
  | cons l t ih =>
    intro out hout
    have h1 : isFence l = false := hnf l (List.mem_cons_self l t)
    have ht : ∀ x ∈ t, isFence x = false := fun x hx => hnf x (List.mem_cons_of_mem l hx)
    have htl : ∀ x ∈ t, '\n' ∉ x := fun x hx => hnl x (List.mem_cons_of_mem l hx)
    by_cases hs : stripChars l = []
    · rw [show processLines (l :: t) false = processLines t false from
        by simp [processLines, h1, hs]] at hout
      exact ih ht htl out hout
    · rw [show processLines (l :: t) false =
          ('>' :: ' ' :: stripChars l) :: processLines t false from
        by simp [processLines, h1, hs]] at hout
      rcases List.mem_cons.mp hout with h2 | h2
      · exact ⟨stripChars l, hs,
          fun hm => hnl l (List.mem_cons_self l t) (mem_stripChars l _ hm),
          fun c => stripChars_head l c, fun c => stripChars_last l c, h2⟩
      · exact ih ht htl out h2

theorem dictLookup_appendMessage (store : Store) (sid : String) (m : Message)
    (h : History) (hl : dictLookup store sid = some h) :
    dictLookup (appendMessage store sid m) sid = some (h ++ [m]) := by
  unfold appendMessage
  rw [hl]
  exact dictLookup_dictSet_self store sid (h ++ [m])

theorem dictLookup_foldl_append (msgs : List Message) :
    ∀ (store : Store) (sid : String) (h : History),
      dictLookup store sid = some h →
      dictLookup (msgs.foldl (fun st m => appendMessage st sid m) store) sid =
        some (h ++ msgs) := by
  induction msgs with
  | nil =>
    intro store sid h hl
    simpa using hl
  | cons m ms ih =>
    intro store sid h hl
    have step := dictLookup_appendMessage store sid m h hl
    have := ih (appendMessage store sid m) sid (h ++ [m]) step
    simpa [List.append_assoc] using this

/-- C1: for a title not present in the cache, a first call to
`load_wikipedia_with_cache` returns the freshly loaded documents and
writes the extended mapping, and a second call for the same title —
even with the collaborator replaced — returns a structurally equal
document list, performs zero collaborator invocations, and leaves the
cache file state (hence its bytes) exactly as after the first call. -/
theorem cache_round_trip (loader loader2 : String → List Document)
    (file : FileState) (cache : Cache) (title : String)
    (hread : readCache file = Except.ok cache)
    (hmiss : dictLookup cache title = none) :
    load_wikipedia_with_cache loader file title =
      Except.ok (loader title,
        FileState.valid (dictSet cache title ((loader title).map serializeDoc)), 1) ∧
    load_wikipedia_with_cache loader2
        (FileState.valid (dictSet cache title ((loader title).map serializeDoc))) title =
      Except.ok (loader title,
        FileState.valid (dictSet cache title ((loader title).map serializeDoc)), 0) := by
  constructor
  · simp only [load_wikipedia_with_cache, hread, hmiss]
  · simp only [load_wikipedia_with_cache, readCache,
      dictLookup_dictSet_self, deserializeDocs_map]

/-- C1 witness: the spec's worked example — absent cache file, stub
loader returning one document with content "X"; the second call with a
replaced collaborator returns the same list with zero invocations and
the same file state. -/
theorem cache_round_trip_check :
    readCache FileState.absent = Except.ok ([] : Cache) ∧
    dictLookup ([] : Cache) "Turing Award" = none ∧
    (load_wikipedia_with_cache stubLoader FileState.absent "Turing Award" =
        Except.ok (stubLoader "Turing Award",
          FileState.valid
            (dictSet [] "Turing Award" ((stubLoader "Turing Award").map serializeDoc)), 1) ∧
      load_wikipedia_with_cache otherLoader
          (FileState.valid
            (dictSet [] "Turing Award" ((stubLoader "Turing Award").map serializeDoc)))
          "Turing Award" =
        Except.ok (stubLoader "Turing Award",
          FileState.valid
            (dictSet [] "Turing Award" ((stubLoader "Turing Award").map serializeDoc)), 0)) :=
  ⟨rfl, rfl, cache_round_trip stubLoader otherLoader FileState.absent [] "Turing Award" rfl rfl⟩

/-- C3: `format_docs` of an empty list is the empty string, of a
singleton is exactly that document's content, and in general joins the
content fields with a double line break — but a missing (`None`) input
raises `TypeError` instead of returning the empty string, contradicting
the function's own docstring ("Returns an empty string if the input
list is empty or None"). -/
theorem format_docs_none_bug :
    format_docsPy none = Except.error (PyErr.typeErr "NoneType object is not iterable") ∧
    format_docsPy (some []) = Except.ok "" ∧
    (∀ d : Document, format_docsPy (some [d]) = Except.ok d.page_content) ∧
    (∀ docs : List Document, format_docsPy (some docs) =
      Except.ok (String.intercalate "\n\n" (docs.map Document.page_content))) :=
  ⟨rfl, rfl, fun _ => rfl, fun _ => rfl⟩

/-- C4: with the cache file missing, `load_wikipedia_with_cache`
proceeds with an empty mapping (and completes the miss path) instead of
failing; any other read failure — invalid JSON included — propagates to
the caller unchanged. -/
theorem cache_read_errors :
    (∀ (loader : String → List Document) (title : String),
      load_wikipedia_with_cache loader FileState.absent title =
        Except.ok (loader title,
          FileState.valid [(title, (loader title).map serializeDoc)], 1)) ∧
    (∀ (loader : String → List Document) (title msg : String),
      load_wikipedia_with_cache loader (FileState.invalid msg) title =
        Except.error (PyErr.readErr msg)) :=
  ⟨fun _ _ => rfl, fun _ _ _ => rfl⟩

/-- C5: on a cache miss the loader is invoked (exactly once) with the
title, each returned document is serialized into its plain field
mapping and stored under the title, the whole updated mapping is
written back as a full overwrite whose bytes are the 4-space-indented
pretty-printed dump, and the returned list is the freshly loaded one,
not the serialized copies. -/
theorem cache_miss_writes (loader : String → List Document) (file : FileState)
    (cache : Cache) (title : String)
    (hread : readCache file = Except.ok cache)
    (hmiss : dictLookup cache title = none) :
    load_wikipedia_with_cache loader file title =
      Except.ok (loader title,
        FileState.valid (dictSet cache title ((loader title).map serializeDoc)), 1) ∧
    fileBytes (FileState.valid (dictSet cache title ((loader title).map serializeDoc))) =
      some (dumpCache (dictSet cache title ((loader title).map serializeDoc))) := by
  refine ⟨?_, rfl⟩
  simp only [load_wikipedia_with_cache, hread, hmiss]

/-- C5 witness: the miss path at the concrete worked example. -/
theorem cache_miss_writes_check :
    readCache FileState.absent = Except.ok ([] : Cache) ∧
    dictLookup ([] : Cache) "Turing Award" = none ∧
    (load_wikipedia_with_cache stubLoader FileState.absent "Turing Award" =
        Except.ok (stubLoader "Turing Award",
          FileState.valid
            (dictSet [] "Turing Award" ((stubLoader "Turing Award").map serializeDoc)), 1) ∧
      fileBytes (FileState.valid
          (dictSet [] "Turing Award" ((stubLoader "Turing Award").map serializeDoc))) =
        some (dumpCache
          (dictSet [] "Turing Award" ((stubLoader "Turing Award").map serializeDoc)))) :=
  ⟨rfl, rfl, cache_miss_writes stubLoader FileState.absent [] "Turing Award" rfl rfl⟩

/-- C7: the session accessor is an idempotent get-or-create — a first
call for an unknown id creates and returns the empty history, and after
appending messages through the returned alias, a second call with the
same id returns the very store it was given (no further mutation) and a
history containing exactly those appends. -/
theorem session_get_or_create (store : Store) (sid : String) (msgs : List Message)
    (h : dictLookup store sid = none) :
    get_session_history store sid = (dictSet store sid [], []) ∧
    get_session_history
        (msgs.foldl (fun st m => appendMessage st sid m) (dictSet store sid [])) sid =
      (msgs.foldl (fun st m => appendMessage st sid m) (dictSet store sid []), msgs) := by
  have h2 : dictLookup (dictSet store sid []) sid = some [] :=
    dictLookup_dictSet_self store sid []
  have h3 := dictLookup_foldl_append msgs (dictSet store sid []) sid [] h2
  simp only [List.nil_append] at h3
  constructor
  · unfold get_session_history
    rw [h]
  · unfold get_session_history
    rw [h3]

/-- C7 witness: empty store, one appended message visible through the
second call. -/
theorem session_get_or_create_check :
    dictLookup ([] : Store) "s1" = none ∧
    (get_session_history [] "s1" = (dictSet [] "s1" [], []) ∧
      get_session_history
          (([⟨"user", "hi"⟩] : List Message).foldl
            (fun st m => appendMessage st "s1" m) (dictSet [] "s1" [])) "s1" =
        (([⟨"user", "hi"⟩] : List Message).foldl
          (fun st m => appendMessage st "s1" m) (dictSet [] "s1" []),
          [⟨"user", "hi"⟩])) :=
  ⟨rfl, session_get_or_create [] "s1" [⟨"user", "hi"⟩] rfl⟩

/-- C9: for a session id already present, the accessor returns the
stored history and the store completely unchanged — no entry created,
replaced, or touched. -/
theorem session_frame (store : Store) (sid : String) (h0 : History)
    (h : dictLookup store sid = some h0) :
    get_session_history store sid = (store, h0) := by
  unfold get_session_history
  rw [h]

/-- C9 witness: a concrete two-entry store with the queried id present. -/
theorem session_frame_check :
    dictLookup ([("s1", [⟨"user", "hi"⟩]), ("s2", [])] : Store) "s1" =
      some [⟨"user", "hi"⟩] ∧
    get_session_history [("s1", [⟨"user", "hi"⟩]), ("s2", [])] "s1" =
      ([("s1", [⟨"user", "hi"⟩]), ("s2", [])], [⟨"user", "hi"⟩]) :=
  ⟨rfl, session_frame _ "s1" _ rfl⟩

/-- C10: `format_docs` depends only on the sequence of `page_content`
fields — two document lists with pairwise equal content produce the
same string whatever their metadata. -/
theorem format_docs_content_only (l1 l2 : List Document)
    (h : l1.map Document.page_content = l2.map Document.page_content) :
    format_docs l1 = format_docs l2 := by
  unfold format_docs
  rw [h]

/-- C10 witness: equal contents, different metadata mappings. -/
theorem format_docs_content_only_check :
    ([⟨"A", [("source", JVal.str "u")]⟩] : List Document).map Document.page_content =
      ([⟨"A", []⟩] : List Document).map Document.page_content ∧
    format_docs [⟨"A", [("source", JVal.str "u")]⟩] = format_docs [⟨"A", []⟩] :=
  ⟨rfl, format_docs_content_only [⟨"A", [("source", JVal.str "u")]⟩] [⟨"A", []⟩] rfl⟩

/-- C2 (counterexample): the content between fences is not always
reproduced byte-for-byte.  The bullet pre-pass rewrites a bullet inside
a fenced block, and the python-block pre-pass can split a line between
fences and blockquote-prefix another. -/
theorem to_markdown_code_cex :
    splitLines ("```\n•\n```".data) = ["```".data, "•".data, "```".data] ∧
    splitLines (to_markdown ("```\n•\n```".data)) =
      ["```".data, "  * ".data, "```".data] ∧
    "  * ".data ≠ "•".data ∧
    splitLines ("```\nx```python\ny\n```".data) =
      ["```".data, "x```python".data, "y".data, "```".data] ∧
    splitLines (to_markdown ("```\nx```python\ny\n```".data)) =
      ["```".data, "x".data, "```python".data, "> y".data, "```".data,
        ([] : List Char)] :=
  ⟨rfl, rfl, by decide, rfl, rfl⟩

/-- C2 (amended): for text containing no bullet glyph and no
occurrence of the python-block opening — so both pre-passes are inert —
the lines strictly between a genuine code-fence-open line and the next
code-fence-close line appear in the output verbatim and contiguously:
no blockquote prefix, no trimming, no character substitution. -/
theorem to_markdown_code_verbatim (text : List Char)
    (pre content post : List (List Char)) (op cl : List Char)
    (hb : hasBullet text = false) (hp : hasPyOpen text = false)
    (hsplit : splitLines text = pre ++ op :: (content ++ cl :: post))
    (hop : isFence op = true) (hcl : isFence cl = true)
    (hcontent : ∀ m ∈ content, isFence m = false)
    (hpre : flagAfter pre false = false) :
    to_markdown text =
      joinLines (processLines pre false ++ op ::
        (content ++ cl :: processLines post false)) := by
  unfold to_markdown
  rw [replaceBullets_id text hb, pythonSub_id text hp, hsplit]
  congr 1
  rw [processLines_append, hpre, processLines_fence_cons _ _ _ hop]
  simp only [Bool.not_false]
  rw [processLines_append, flagAfter_no_fence content true hcontent,
    processLines_true_id content hcontent, processLines_fence_cons _ _ _ hcl]
  simp only [Bool.not_true]

/-- C2 witness: a fenced block with content "Q" passes through
verbatim. -/
theorem to_markdown_code_verbatim_check :
    hasBullet ("```\nQ\n```".data) = false ∧
    hasPyOpen ("```\nQ\n```".data) = false ∧
    splitLines ("```\nQ\n```".data) =
      [] ++ "```".data :: (["Q".data] ++ "```".data :: []) ∧
    isFence ("```".data) = true ∧
    (∀ m ∈ ["Q".data], isFence m = false) ∧
    flagAfter [] false = false ∧
    to_markdown ("```\nQ\n```".data) =
      joinLines (processLines [] false ++ "```".data ::
        (["Q".data] ++ "```".data :: processLines [] false)) :=
  ⟨rfl, rfl, rfl, rfl, by decide, rfl,
    to_markdown_code_verbatim ("```\nQ\n```".data) [] ["Q".data] []
      ("```".data) ("```".data) rfl rfl rfl rfl rfl (by decide) rfl⟩

/-- C6: for text containing no code-fence marker, either the
formatter's output is the empty string (so it has no lines at all), or
every line of the output — the decomposition at newlines, which is
exact because no emitted line contains a newline — consists of the
blockquote marker followed by nonempty content with no leading or
trailing whitespace.  In particular every non-blank output line is
blockquote-prefixed and blank lines are dropped entirely. -/
theorem to_markdown_blockquotes (text : List Char) (h : hasTicks text = false) :
    to_markdown text = [] ∨
    ∀ l ∈ splitLines (to_markdown text),
      ∃ s, s ≠ [] ∧ (∀ c, s.head? = some c → isSpace c = false) ∧
        (∀ c, s.getLast? = some c → isSpace c = false) ∧ l = '>' :: ' ' :: s := by
  have hb : hasTicks (replaceBullets text) = false := hasTicks_replaceBullets text h
  have hp : hasPyOpen (replaceBullets text) = false := hasPyOpen_of_no_ticks _ hb
  have hmk : to_markdown text =
      joinLines (processLines (splitLines (replaceBullets text)) false) := by
    unfold to_markdown
    rw [pythonSub_id _ hp]
  have hout := processLines_out (splitLines (replaceBullets text))
    (splitLines_no_fence _ hb) (splitLines_no_newline _)
  cases hls : processLines (splitLines (replaceBullets text)) false with
  | nil =>
    left
    rw [hmk, hls]
    rfl
  | cons o t =>
    right
    intro l hl
    have hnl2 : ∀ x ∈ processLines (splitLines (replaceBullets text)) false,
        '\n' ∉ x := by
      intro x hx
      obtain ⟨s, _, hsnl, _, _, hxs⟩ := hout x hx
      rw [hxs]
      intro hmem
      rcases List.mem_cons.mp hmem with h1 | h1
      · exact absurd h1 (by decide)
      · rcases List.mem_cons.mp h1 with h2 | h2
        · exact absurd h2 (by decide)
        · exact hsnl h2
    rw [hmk, splitLines_joinLines _ hnl2 (by rw [hls]; simp)] at hl
    obtain ⟨s, hs1, _, hs2, hs3, hs4⟩ := hout l hl
    exact ⟨s, hs1, hs2, hs3, hs4⟩

/-- C6 witness: fence-free text with surrounding whitespace, a bullet
and a blank line. -/
theorem to_markdown_blockquotes_check :
    hasTicks ("  hello •\n\nworld  ".data) = false ∧
    (to_markdown ("  hello •\n\nworld  ".data) = [] ∨
      ∀ l ∈ splitLines (to_markdown ("  hello •\n\nworld  ".data)),
        ∃ s, s ≠ [] ∧ (∀ c, s.head? = some c → isSpace c = false) ∧
          (∀ c, s.getLast? = some c → isSpace c = false) ∧ l = '>' :: ' ' :: s) :=
  ⟨rfl, to_markdown_blockquotes ("  hello •\n\nworld  ".data) rfl⟩

/-- C8 (counterexample): a line beginning with the fence marker is not
always emitted exactly as-is — the bullet pre-pass rewrites a bullet on
the fence line itself before the line loop sees it. -/
theorem fence_toggle_cex :
    splitLines ("```•".data) = ["```•".data] ∧
    to_markdown ("```•".data) = "```  * ".data ∧
    "```  * ".data ≠ "```•".data :=
  ⟨rfl, rfl, by decide⟩

/-- C8 (amended): for text containing no bullet glyph and no
occurrence of the python-block opening, every line beginning with the
fence marker toggles the inside-code-block flag and is emitted exactly
as-is (no trimming, no blockquote prefix); if such a fence opens while
the flag is off and no later fence line follows, the flag stays set and
every remaining line passes through unmodified. -/
theorem fence_toggle_amended (text : List Char) (pre post : List (List Char))
    (l : List Char)
    (hb : hasBullet text = false) (hp : hasPyOpen text = false)
    (hsplit : splitLines text = pre ++ l :: post) (hl : isFence l = true) :
    to_markdown text =
      joinLines (processLines pre false ++ l ::
        processLines post (!(flagAfter pre false))) ∧
    (flagAfter pre false = false → (∀ m ∈ post, isFence m = false) →
      processLines post (!(flagAfter pre false)) = post) := by
  constructor
  · unfold to_markdown
    rw [replaceBullets_id text hb, pythonSub_id text hp, hsplit]
    congr 1
    rw [processLines_append, processLines_fence_cons _ _ _ hl]
  · intro h1 h2
    rw [h1]
    simp only [Bool.not_false]
    exact processLines_true_id post h2

/-- C8 witness: an unterminated fence after one text line; the line
after the fence passes through with its whitespace intact. -/
theorem fence_toggle_amended_check :
    hasBullet ("a\n```\n b ".data) = false ∧
    hasPyOpen ("a\n```\n b ".data) = false ∧
    splitLines ("a\n```\n b ".data) = ["a".data] ++ "```".data :: [" b ".data] ∧
    isFence ("```".data) = true ∧
    (to_markdown ("a\n```\n b ".data) =
        joinLines (processLines ["a".data] false ++ "```".data ::
          processLines [" b ".data] (!(flagAfter ["a".data] false))) ∧
      (flagAfter ["a".data] false = false →
        (∀ m ∈ [" b ".data], isFence m = false) →
        processLines [" b ".data] (!(flagAfter ["a".data] false)) = [" b ".data])) :=
  ⟨rfl, rfl, rfl, rfl,
    fence_toggle_amended ("a\n```\n b ".data) ["a".data] [" b ".data]
      ("```".data) rfl rfl rfl rfl⟩
